import Mathlib

/-!
Shallow embedding of the `http-api-problem` crate (`src/lib.rs`): the
`HttpApiProblem` data model, its serde JSON encode/decode contract, the
extension-field accessors, the effective-status computation and the
`Display` rendering.

JSON documents are modelled as trees (`Json`), with objects as ordered lists
of members; the textual layer of `serde_json` (`to_string` / `from_str`) is a
printer over such trees.  `HashMap<String, serde_json::Value>` is modelled as
an association list whose insert replaces an existing key in place and
otherwise appends; the list order stands in for the hash map's (irrelevant)
iteration order.
-/

/-- JSON values, as in `serde_json::Value`, restricted to integer numerals
(no claim under consideration involves floating point numbers). -/
inductive Json where
  | null : Json
  | bool (b : Bool) : Json
  | num (n : Int) : Json
  | str (s : String) : Json
  | arr (elems : List Json) : Json
  | obj (members : List (String × Json)) : Json

/-- Model of `http::StatusCode`: the `http` crate admits exactly the numerals
in `100..=999` (`StatusCode::from_u16` rejects everything else). -/
abbrev StatusCode := { n : Nat // 100 ≤ n ∧ n < 1000 }

/-- Model of `http::StatusCode::from_u16` (and `TryFrom<u16>`): `Ok` exactly
on `100..=999`. -/
def statusFromNat (n : Nat) : Option StatusCode :=
  if h : 100 ≤ n ∧ n < 1000 then some ⟨n, h⟩ else none

/-- Model of `http::StatusCode::canonical_reason`: the reason-phrase table
of the `http` crate (the IANA registry entries it hardcodes). -/
def canonicalReason : Nat → Option String
  | 100 => some "Continue"
  | 101 => some "Switching Protocols"
  | 102 => some "Processing"
  | 200 => some "OK"
  | 201 => some "Created"
  | 202 => some "Accepted"
  | 203 => some "Non Authoritative Information"
  | 204 => some "No Content"
  | 205 => some "Reset Content"
  | 206 => some "Partial Content"
  | 207 => some "Multi-Status"
  | 208 => some "Already Reported"
  | 226 => some "IM Used"
  | 300 => some "Multiple Choices"
  | 301 => some "Moved Permanently"
  | 302 => some "Found"
  | 303 => some "See Other"
  | 304 => some "Not Modified"
  | 305 => some "Use Proxy"
  | 307 => some "Temporary Redirect"
  | 308 => some "Permanent Redirect"
  | 400 => some "Bad Request"
  | 401 => some "Unauthorized"
  | 402 => some "Payment Required"
  | 403 => some "Forbidden"
  | 404 => some "Not Found"
  | 405 => some "Method Not Allowed"
  | 406 => some "Not Acceptable"
  | 407 => some "Proxy Authentication Required"
  | 408 => some "Request Timeout"
  | 409 => some "Conflict"
  | 410 => some "Gone"
  | 411 => some "Length Required"
  | 412 => some "Precondition Failed"
  | 413 => some "Payload Too Large"
  | 414 => some "URI Too Long"
  | 415 => some "Unsupported Media Type"
  | 416 => some "Range Not Satisfiable"
  | 417 => some "Expectation Failed"
  | 418 => some "I\x27m a teapot"
  | 421 => some "Misdirected Request"
  | 422 => some "Unprocessable Entity"
  | 423 => some "Locked"
  | 424 => some "Failed Dependency"
  | 426 => some "Upgrade Required"
  | 428 => some "Precondition Required"
  | 429 => some "Too Many Requests"
  | 431 => some "Request Header Fields Too Large"
  | 451 => some "Unavailable For Legal Reasons"
  | 500 => some "Internal Server Error"
  | 501 => some "Not Implemented"
  | 502 => some "Bad Gateway"
  | 503 => some "Service Unavailable"
  | 504 => some "Gateway Timeout"
  | 505 => some "HTTP Version Not Supported"
  | 506 => some "Variant Also Negotiates"
  | 507 => some "Insufficient Storage"
  | 508 => some "Loop Detected"
  | 510 => some "Not Extended"
  | 511 => some "Network Authentication Required"
  | _ => none

/-- The `StatusCode::INTERNAL_SERVER_ERROR` constant. -/
def internalServerError : StatusCode := ⟨500, by omega⟩

/-- Model of the struct `HttpApiProblem` of `src/lib.rs` (lines 158-196).
The field `instance` is renamed `instance_` (`instance` is a Lean keyword);
`additional_fields` is the flattened `HashMap<String, serde_json::Value>`. -/
structure HttpApiProblem where
  type_url : Option String
  status : Option StatusCode
  title : Option String
  detail : Option String
  instance_ : Option String
  additional_fields : List (String × Json)

/-- Model of `HashMap::insert` on the association-list representation:
replace the entry of an existing key in place, otherwise append. -/
def insertAF : List (String × Json) → String → Json → List (String × Json)
  | [], k, v => [(k, v)]
  | (k', v') :: rest, k, v =>
    if k' = k then (k, v) :: rest else (k', v') :: insertAF rest k v

/-- Model of `HashMap::get` on the association-list representation. -/
def lookupAF : List (String × Json) → String → Option Json
  | [], _ => none
  | (k', v') :: rest, k => if k' = k then some v' else lookupAF rest k

/-- Model of `HttpApiProblem::empty`: all fixed fields absent, no extensions. -/
def HttpApiProblem.empty : HttpApiProblem := ⟨none, none, none, none, none, []⟩

/-- Model of the builder setter `HttpApiProblem::status` (its deprecated
alias in the source is `set_status`, the name used here because the Lean
structure field is already called `status`). -/
def HttpApiProblem.set_status (p : HttpApiProblem) (status : StatusCode) : HttpApiProblem :=
  { p with status := some status }

/-- Model of the builder setter `HttpApiProblem::type_url`. -/
def HttpApiProblem.set_type_url (p : HttpApiProblem) (type_url : String) : HttpApiProblem :=
  { p with type_url := some type_url }

/-- Model of the builder setter `HttpApiProblem::title`. -/
def HttpApiProblem.set_title (p : HttpApiProblem) (title : String) : HttpApiProblem :=
  { p with title := some title }

/-- Model of the builder setter `HttpApiProblem::detail`. -/
def HttpApiProblem.set_detail (p : HttpApiProblem) (detail : String) : HttpApiProblem :=
  { p with detail := some detail }

/-- Model of the builder setter `HttpApiProblem::instance`. -/
def HttpApiProblem.set_instance (p : HttpApiProblem) (inst : String) : HttpApiProblem :=
  { p with instance_ := some inst }

/-- Model of `HttpApiProblem::new`: `Self::empty().status(status)`. -/
def HttpApiProblem.new (status : StatusCode) : HttpApiProblem :=
  HttpApiProblem.empty.set_status status

/-- Model of `HttpApiProblem::with_title`:
`Self::new(status).title(status.canonical_reason().unwrap_or("<unknown status code>"))`. -/
def HttpApiProblem.with_title (status : StatusCode) : HttpApiProblem :=
  (HttpApiProblem.new status).set_title
    ((canonicalReason status.val).getD "<unknown status code>")

/-- Model of `HttpApiProblem::with_title_and_type`:
`Self::with_title(status).type_url(format!("https://httpstatuses.com/{}", status.as_u16()))`. -/
def HttpApiProblem.with_title_and_type (status : StatusCode) : HttpApiProblem :=
  (HttpApiProblem.with_title status).set_type_url
    ("https://httpstatuses.com/" ++ toString status.val)

/-- Model of `HttpApiProblem::status_or_internal_server_error`. -/
def HttpApiProblem.status_or_internal_server_error (p : HttpApiProblem) : StatusCode :=
  p.status.getD internalServerError

/-- Model of a caller-supplied extension value.  `try_set_value` only ever
inspects such a value through `serde_json::to_value`, so the value is
modelled by that call's outcome: `.ok` with the serialized JSON tree, or
`.error` with serde's error message. -/
abbrev SerdeValue := Except String Json

/-- The reserved keys rejected by `HttpApiProblem::try_set_value`: the five
wire names plus the internal container name. -/
def reservedKeys : List String :=
  ["type", "status", "title", "detail", "instance", "additional_fields"]

/-- The five fixed wire member names of the RFC 7807 object. -/
def wireFive : List String := ["type", "status", "title", "detail", "instance"]

/-- Model of `HttpApiProblem::try_set_value` (lines 534-554): reserved-name
check first, then serialization, then `HashMap::insert`. -/
def HttpApiProblem.try_set_value (p : HttpApiProblem) (key : String) (value : SerdeValue) :
    Except String HttpApiProblem :=
  if key = "type" then .error "'type' is a reserved field name"
  else if key = "status" then .error "'status' is a reserved field name"
  else if key = "title" then .error "'title' is a reserved field name"
  else if key = "detail" then .error "'detail' is a reserved field name"
  else if key = "instance" then .error "'instance' is a reserved field name"
  else if key = "additional_fields" then .error "'additional_fields' is a reserved field name"
  else
    match value with
    | .error msg => .error msg
    | .ok serialized =>
      .ok { p with additional_fields := insertAF p.additional_fields key serialized }

/-- Model of `HttpApiProblem::set_value`: `let _ = self.try_set_value(key, value)` —
the entity is unchanged whenever `try_set_value` fails. -/
def HttpApiProblem.set_value (p : HttpApiProblem) (key : String) (value : SerdeValue) :
    HttpApiProblem :=
  match p.try_set_value key value with
  | .ok q => q
  | .error _ => p

/-- Model of the builder variant `HttpApiProblem::value`, which delegates to
`set_value`. -/
def HttpApiProblem.value (p : HttpApiProblem) (key : String) (value : SerdeValue) :
    HttpApiProblem :=
  p.set_value key value

/-- Model of `HttpApiProblem::json_value`: the raw stored JSON value. -/
def HttpApiProblem.json_value (p : HttpApiProblem) (key : String) : Option Json :=
  lookupAF p.additional_fields key

/-- Model of `HttpApiProblem::get_value`:
`self.json_value(key).and_then(|v| serde_json::from_value(v.clone()).ok())`.
The caller-chosen target type is modelled by its deserialization function
`fromJson` (the composite `serde_json::from_value(..).ok()`). -/
def HttpApiProblem.get_value {α : Type} (fromJson : Json → Option α) (p : HttpApiProblem)
    (key : String) : Option α :=
  (p.json_value key).bind fromJson

/-- Model of `HttpApiProblem::keys`: the stored extension key names. -/
def HttpApiProblem.keys (p : HttpApiProblem) : List String :=
  p.additional_fields.map Prod.fst

/-- Members a fixed optional field contributes to the encoded object:
nothing when absent (`skip_serializing_if = "Option::is_none"`), one member
when present. -/
def optMember (name : String) (enc : α → Json) : Option α → List (String × Json)
  | none => []
  | some a => [(name, enc a)]

/-- Model of the derived `Serialize` for `HttpApiProblem`: the five fixed
fields in declaration order (absent ones omitted, `status` written as its
plain `u16` numeral via `custom_http_status_serialization::serialize`),
followed by the flattened `additional_fields` entries. -/
def encodeObj (p : HttpApiProblem) : List (String × Json) :=
  optMember "type" Json.str p.type_url
    ++ optMember "status" (fun c => Json.num (c.val : Int)) p.status
    ++ optMember "title" Json.str p.title
    ++ optMember "detail" Json.str p.detail
    ++ optMember "instance" Json.str p.instance_
    ++ p.additional_fields

/-- Model of `HttpApiProblem::json` at the tree level: the encoded object. -/
def HttpApiProblem.to_json (p : HttpApiProblem) : Json :=
  Json.obj (encodeObj p)

/-- Deserialization state of the derived `Deserialize` visitor: each fixed
field is `Option (Option _)` — the outer layer is the "already seen" flag
used for the duplicate-field check, the inner layer is the field value
itself.  `ex` collects the members routed to `additional_fields`. -/
structure DeState where
  ty : Option (Option String)
  st : Option (Option StatusCode)
  ti : Option (Option String)
  de : Option (Option String)
  ins : Option (Option String)
  ex : List (String × Json)

/-- Model of `Option::<String>::deserialize` on a JSON value. -/
def decodeOptString : Json → Except String (Option String)
  | .null => .ok none
  | .str s => .ok (some s)
  | _ => .error "invalid type: expected a string"

/-- Model of `custom_http_status_serialization::deserialize` (lines 893-909):
first `Option::<u16>::deserialize` (which rejects numerals outside
`0..=65535`), then `StatusCode::try_from(n).ok()` — an in-range `u16` that is
not a valid status code becomes `None` instead of an error. -/
def decodeStatus : Json → Except String (Option StatusCode)
  | .null => .ok none
  | .num n =>
    if 0 ≤ n ∧ n < 65536 then .ok (statusFromNat n.toNat)
    else .error "invalid value: integer out of range for u16"
  | _ => .error "invalid type: expected u16"

/-- One step of the derived `Deserialize` visitor: dispatch one object member
on its key.  The five known wire names are routed to the fixed fields (with
serde's duplicate-field check); every other member is inserted into the
flattened map. -/
def decodeStep (s : DeState) (k : String) (v : Json) : Except String DeState :=
  if k = "type" then
    match s.ty with
    | some _ => .error "duplicate field type"
    | none => (decodeOptString v).map (fun x => { s with ty := some x })
  else if k = "status" then
    match s.st with
    | some _ => .error "duplicate field status"
    | none => (decodeStatus v).map (fun x => { s with st := some x })
  else if k = "title" then
    match s.ti with
    | some _ => .error "duplicate field title"
    | none => (decodeOptString v).map (fun x => { s with ti := some x })
  else if k = "detail" then
    match s.de with
    | some _ => .error "duplicate field detail"
    | none => (decodeOptString v).map (fun x => { s with de := some x })
  else if k = "instance" then
    match s.ins with
    | some _ => .error "duplicate field instance"
    | none => (decodeOptString v).map (fun x => { s with ins := some x })
  else .ok { s with ex := insertAF s.ex k v }

/-- The visitor loop over the object's members. -/
def decodeMembers : List (String × Json) → DeState → Except String DeState
  | [], s => .ok s
  | (k, v) :: rest, s =>
    match decodeStep s k v with
    | .error e => .error e
    | .ok s' => decodeMembers rest s'

/-- The all-unseen initial visitor state. -/
def initState : DeState := ⟨none, none, none, none, none, []⟩

/-- Model of the derived `Deserialize` for `HttpApiProblem` (with
`#[serde(flatten)]` the input must be a JSON object): run the visitor over
the members, then default every unseen optional field to `None`. -/
def decodeProblem : Json → Except String HttpApiProblem
  | .obj ms =>
    match decodeMembers ms initState with
    | .error e => .error e
    | .ok s => .ok ⟨s.ty.join, s.st.join, s.ti.join, s.de.join, s.ins.join, s.ex⟩
  | _ => .error "invalid type: expected a map"

/-- Model of `fmt::Display for http::StatusCode` in the `http` crate, which
formats the code *including* its canonical reason, e.g. `200 OK`. -/
def StatusCode.display (c : StatusCode) : String :=
  toString c.val ++ " " ++ ((canonicalReason c.val).getD "<unknown status code>")

/-- Model of `impl fmt::Display for HttpApiProblem` (lines 743-764): the
status (via the status type's `Display`) or `<no status>`, then title and/or
detail joined by " - ", else the type URL if any. -/
def HttpApiProblem.displayRender (p : HttpApiProblem) : String :=
  let head :=
    match p.status with
    | some c => c.display
    | none => "<no status>"
  match p.title, p.detail with
  | some t, some d => head ++ " - " ++ t ++ " - " ++ d
  | some t, none => head ++ " - " ++ t
  | none, some d => head ++ " - " ++ d
  | none, none =>
    match p.type_url with
    | some u => head ++ " - " ++ u
    | none => head

theorem insertAF_fresh {m : List (String × Json)} {k : String} (v : Json)
    (h : k ∉ m.map Prod.fst) : insertAF m k v = m ++ [(k, v)] := by
  induction m with
  | nil => rfl
  | cons p rest ih =>
    obtain ⟨k', v'⟩ := p
    simp only [List.map_cons, List.mem_cons, not_or] at h
    have hne : ¬ k' = k := fun hh => h.1 hh.symm
    simp [insertAF, hne, ih h.2]

theorem lookupAF_insertAF_self (m : List (String × Json)) (k : String) (v : Json) :
    lookupAF (insertAF m k v) k = some v := by
  induction m with
  | nil => simp [insertAF, lookupAF]
  | cons p rest ih =>
    obtain ⟨k', v'⟩ := p
    by_cases h : k' = k
    · simp [insertAF, lookupAF, h]
    · simp [insertAF, lookupAF, h, ih]

theorem lookupAF_insertAF_ne (m : List (String × Json)) {k k' : String} (v : Json)
    (h : k' ≠ k) : lookupAF (insertAF m k v) k' = lookupAF m k' := by
  induction m with
  | nil => simp [insertAF, lookupAF, Ne.symm h]
  | cons p rest ih =>
    obtain ⟨a, b⟩ := p
    by_cases hk : a = k
    · subst hk
      simp [insertAF, lookupAF, Ne.symm h]
    · simp only [insertAF, if_neg hk, lookupAF]
      by_cases hq : a = k'
      · simp [hq]
      · simp [hq, ih]

theorem keys_insertAF {m : List (String × Json)} {k a : String} (v : Json)
    (h : a ∈ (insertAF m k v).map Prod.fst) : a = k ∨ a ∈ m.map Prod.fst := by
  induction m with
  | nil => simpa [insertAF] using h
  | cons p rest ih =>
    obtain ⟨k', v'⟩ := p
    by_cases hk : k' = k
    · simp only [insertAF, if_pos hk, List.map_cons, List.mem_cons] at h
      rcases h with h | h
      · exact Or.inl h
      · exact Or.inr (by simp [h])
    · simp only [insertAF, if_neg hk, List.map_cons, List.mem_cons] at h
      rcases h with h | h
      · exact Or.inr (by simp [h])
      · rcases ih h with h' | h'
        · exact Or.inl h'
        · exact Or.inr (by simp [h'])

theorem decodeMembers_append (a b : List (String × Json)) (s : DeState) :
    decodeMembers (a ++ b) s = (decodeMembers a s).bind (fun t => decodeMembers b t) := by
  induction a generalizing s with
  | nil => simp [decodeMembers, Except.bind]
  | cons p rest ih =>
    obtain ⟨k, v⟩ := p
    simp only [List.cons_append, decodeMembers]
    cases decodeStep s k v with
    | error e => simp [Except.bind]
    | ok s' => simpa [Except.bind] using ih s'

theorem statusFromNat_val (c : StatusCode) : statusFromNat c.val = some c := by
  rw [statusFromNat, dif_pos c.2]

theorem decodeStatus_valid (c : StatusCode) :
    decodeStatus (Json.num (c.val : Int)) = .ok (some c) := by
  have h1 : (0 : Int) ≤ (c.val : Int) ∧ (c.val : Int) < 65536 := by
    have := c.2.2
    omega
  simp [decodeStatus, h1, statusFromNat_val]

theorem decodeStep_unknown (s : DeState) (k : String) (v : Json) (hk : k ∉ wireFive) :
    decodeStep s k v = .ok { s with ex := insertAF s.ex k v } := by
  simp only [wireFive, List.mem_cons, List.not_mem_nil, or_false, not_or] at hk
  obtain ⟨h1, h2, h3, h4, h5⟩ := hk
  simp [decodeStep, h1, h2, h3, h4, h5]

theorem decodeMembers_extras (ms : List (String × Json)) :
    ∀ (s : DeState),
      (∀ k ∈ ms.map Prod.fst, k ∉ wireFive) →
      (ms.map Prod.fst).Nodup →
      (∀ k ∈ ms.map Prod.fst, k ∉ s.ex.map Prod.fst) →
      decodeMembers ms s = .ok { s with ex := s.ex ++ ms } := by
  induction ms with
  | nil => intro s _ _ _; simp [decodeMembers]
  | cons p rest ih =>
    intro s h5 hnd hdisj
    obtain ⟨k, v⟩ := p
    simp only [List.map_cons] at h5 hnd hdisj
    rw [List.nodup_cons] at hnd
    have hk5 : k ∉ wireFive := h5 k (by simp)
    have hkfresh : k ∉ s.ex.map Prod.fst := hdisj k (by simp)
    simp only [decodeMembers, decodeStep_unknown s k v hk5, insertAF_fresh v hkfresh]
    rw [ih _ (fun a ha => h5 a (by simp [ha])) hnd.2]
    · simp
    · intro a ha
      simp only [List.map_append, List.mem_append]
      rintro (hmem | hmem)
      · exact hdisj a (by simp [ha]) hmem
      · simp only [List.map_cons, List.map_nil, List.mem_singleton] at hmem
        exact hnd.1 (hmem ▸ ha)

theorem decodeStep_setSt (s : DeState) (x : Option (Option StatusCode)) (k : String) (v : Json)
    (hk : ¬ k = "status") :
    decodeStep { s with st := x } k v =
      (decodeStep s k v).map (fun u => { u with st := x }) := by
  obtain ⟨a, b, c, d, e, f⟩ := s
  by_cases h1 : k = "type"
  · subst h1
    cases a with
    | some y => rfl
    | none => cases hv : decodeOptString v <;> simp [decodeStep, hv, Except.map]
  · by_cases h2 : k = "title"
    · subst h2
      cases c with
      | some y => rfl
      | none => cases hv : decodeOptString v <;> simp [decodeStep, hv, Except.map]
    · by_cases h3 : k = "detail"
      · subst h3
        cases d with
        | some y => rfl
        | none => cases hv : decodeOptString v <;> simp [decodeStep, hv, Except.map]
      · by_cases h4 : k = "instance"
        · subst h4
          cases e with
          | some y => rfl
          | none => cases hv : decodeOptString v <;> simp [decodeStep, hv, Except.map]
        · simp [decodeStep, h1, h2, h3, h4, hk, Except.map]

theorem decodeStep_st_stable {s : DeState} {k : String} {v : Json} {u : DeState}
    (hk : ¬ k = "status") (h : decodeStep s k v = .ok u) : u.st = s.st := by
  obtain ⟨a, b, c, d, e, f⟩ := s
  by_cases h1 : k = "type"
  · subst h1
    cases a with
    | some y => simp [decodeStep] at h
    | none =>
      cases hv : decodeOptString v <;> simp [decodeStep, hv, Except.map] at h
      rw [← h]
  · by_cases h2 : k = "title"
    · subst h2
      cases c with
      | some y => simp [decodeStep, h1] at h
      | none =>
        cases hv : decodeOptString v <;> simp [decodeStep, h1, hv, Except.map] at h
        rw [← h]
    · by_cases h3 : k = "detail"
      · subst h3
        cases d with
        | some y => simp [decodeStep, h1, h2] at h
        | none =>
          cases hv : decodeOptString v <;> simp [decodeStep, h1, h2, hv, Except.map] at h
          rw [← h]
      · by_cases h4 : k = "instance"
        · subst h4
          cases e with
          | some y => simp [decodeStep, h1, h2, h3] at h
          | none =>
            cases hv : decodeOptString v <;>
              simp [decodeStep, h1, h2, h3, hv, Except.map] at h
            rw [← h]
        · simp [decodeStep, h1, h2, h3, h4, hk] at h
          rw [← h]

theorem decodeMembers_setSt (ms : List (String × Json)) :
    ∀ (s : DeState) (x : Option (Option StatusCode)), "status" ∉ ms.map Prod.fst →
      decodeMembers ms { s with st := x } =
        (decodeMembers ms s).map (fun u => { u with st := x }) := by
  induction ms with
  | nil => intro s x _; simp [decodeMembers, Except.map]
  | cons p rest ih =>
    intro s x hms
    obtain ⟨k, v⟩ := p
    simp only [List.map_cons, List.mem_cons, not_or] at hms
    obtain ⟨hk, hrest⟩ := hms
    have hk' : ¬ k = "status" := fun hh => hk hh.symm
    simp only [decodeMembers, decodeStep_setSt s x k v hk']
    cases hstep : decodeStep s k v with
    | error e => simp [Except.map]
    | ok u =>
      simp only [Except.map]
      exact ih u x hrest

theorem decodeMembers_st_stable (ms : List (String × Json)) :
    ∀ (s t : DeState), "status" ∉ ms.map Prod.fst →
      decodeMembers ms s = .ok t → t.st = s.st := by
  induction ms with
  | nil =>
    intro s t _ h
    simp only [decodeMembers, Except.ok.injEq] at h
    rw [← h]
  | cons p rest ih =>
    intro s t hms h
    obtain ⟨k, v⟩ := p
    simp only [List.map_cons, List.mem_cons, not_or] at hms
    obtain ⟨hk, hrest⟩ := hms
    have hk' : ¬ k = "status" := fun hh => hk hh.symm
    simp only [decodeMembers] at h
    cases hstep : decodeStep s k v with
    | error e => rw [hstep] at h; cases h
    | ok u =>
      rw [hstep] at h
      rw [ih u t hrest h, decodeStep_st_stable hk' hstep]

theorem try_set_value_reserved (p : HttpApiProblem) (value : SerdeValue) {key : String}
    (h : key ∈ reservedKeys) : ∃ msg, p.try_set_value key value = .error msg := by
  simp only [reservedKeys, List.mem_cons, List.not_mem_nil, or_false] at h
  rcases h with rfl | rfl | rfl | rfl | rfl | rfl
  · exact ⟨_, rfl⟩
  · exact ⟨_, rfl⟩
  · exact ⟨_, rfl⟩
  · exact ⟨_, rfl⟩
  · exact ⟨_, rfl⟩
  · exact ⟨_, rfl⟩

theorem try_set_value_free_ok (p : HttpApiProblem) {key : String} (j : Json)
    (h : key ∉ reservedKeys) :
    p.try_set_value key (.ok j) =
      .ok { p with additional_fields := insertAF p.additional_fields key j } := by
  simp only [reservedKeys, List.mem_cons, List.not_mem_nil, or_false, not_or] at h
  obtain ⟨h1, h2, h3, h4, h5, h6⟩ := h
  simp [HttpApiProblem.try_set_value, h1, h2, h3, h4, h5, h6]

theorem try_set_value_free_err (p : HttpApiProblem) {key : String} (msg : String)
    (h : key ∉ reservedKeys) : p.try_set_value key (.error msg) = .error msg := by
  simp only [reservedKeys, List.mem_cons, List.not_mem_nil, or_false, not_or] at h
  obtain ⟨h1, h2, h3, h4, h5, h6⟩ := h
  simp [HttpApiProblem.try_set_value, h1, h2, h3, h4, h5, h6]

/-- C5: the effective-status-or-default computation returns 500 (Internal
Server Error) when the entity's status is `None`, and the entity's own
status code when it is present. -/
theorem claim_C5 (p : HttpApiProblem) :
    (p.status = none → p.status_or_internal_server_error = internalServerError ∧
      (p.status_or_internal_server_error).val = 500) ∧
    (∀ c, p.status = some c → p.status_or_internal_server_error = c) := by
  constructor
  · intro h
    constructor <;> simp [HttpApiProblem.status_or_internal_server_error, h, internalServerError]
  · intro c h
    simp [HttpApiProblem.status_or_internal_server_error, h]

theorem claim_C5_witness :
    HttpApiProblem.empty.status_or_internal_server_error = internalServerError ∧
    (HttpApiProblem.empty.status_or_internal_server_error).val = 500 :=
  (claim_C5 HttpApiProblem.empty).1 rfl

/-- C6: `with_title` sets the status and a title equal to the status code's
canonical reason phrase (placeholder `"<unknown status code>"` when there is
none), and `with_title_and_type` additionally sets the type URL
`https://httpstatuses.com/{code}`; in particular for 503 it yields type
`https://httpstatuses.com/503` and title `Service Unavailable`. -/
theorem claim_C6 :
    (∀ c : StatusCode,
      (HttpApiProblem.with_title c).status = some c ∧
      (HttpApiProblem.with_title c).title =
        some ((canonicalReason c.val).getD "<unknown status code>") ∧
      (HttpApiProblem.with_title_and_type c).status = some c ∧
      (HttpApiProblem.with_title_and_type c).title =
        some ((canonicalReason c.val).getD "<unknown status code>") ∧
      (HttpApiProblem.with_title_and_type c).type_url =
        some ("https://httpstatuses.com/" ++ toString c.val)) ∧
    (HttpApiProblem.with_title_and_type ⟨503, by omega⟩).type_url =
      some "https://httpstatuses.com/503" ∧
    (HttpApiProblem.with_title_and_type ⟨503, by omega⟩).title =
      some "Service Unavailable" :=
  ⟨fun _ => ⟨rfl, rfl, rfl, rfl, rfl⟩, rfl, rfl⟩

/-- C2: the extension setters fail (or no-op for the silent variants)
exactly when the key is reserved or the value does not serialize; a failure
leaves the entity unchanged, and a success inserts or overwrites exactly the
entry for that key and touches nothing else. -/
theorem claim_C2 (p : HttpApiProblem) (key : String) (value : SerdeValue) :
    ((∀ q, p.try_set_value key value ≠ .ok q) ↔
      (key ∈ reservedKeys ∨ ∀ j, value ≠ .ok j)) ∧
    ((key ∈ reservedKeys ∨ ∀ j, value ≠ .ok j) → p.set_value key value = p) ∧
    (∀ j, value = .ok j → key ∉ reservedKeys →
      ∃ q, p.try_set_value key value = .ok q ∧
        p.set_value key value = q ∧
        q.json_value key = some j ∧
        (∀ k', k' ≠ key → q.json_value k' = p.json_value k') ∧
        q.type_url = p.type_url ∧ q.status = p.status ∧ q.title = p.title ∧
        q.detail = p.detail ∧ q.instance_ = p.instance_) := by
  by_cases hres : key ∈ reservedKeys
  · obtain ⟨msg, herr⟩ := try_set_value_reserved p value hres
    refine ⟨⟨fun _ => Or.inl hres, fun _ q hq => ?_⟩, fun _ => ?_, fun j _ hfree => absurd hres hfree⟩
    · rw [herr] at hq; cases hq
    · simp [HttpApiProblem.set_value, herr]
  · cases value with
    | error m =>
      have herr := try_set_value_free_err p m hres
      refine ⟨⟨fun _ => Or.inr (fun j h => by cases h), fun _ q hq => ?_⟩, fun _ => ?_, fun j hj => by cases hj⟩
      · rw [herr] at hq; cases hq
      · simp [HttpApiProblem.set_value, herr]
    | ok j =>
      have hok := try_set_value_free_ok p j hres
      refine ⟨⟨fun hall => (hall _ hok).elim, ?_⟩, ?_, ?_⟩
      · rintro (h | h)
        · exact absurd h hres
        · exact absurd rfl (h j)
      · rintro (h | h)
        · exact absurd h hres
        · exact absurd rfl (h j)
      · rintro j' hj' -
        simp only [Except.ok.injEq] at hj'
        subst hj'
        refine ⟨_, hok, by simp [HttpApiProblem.set_value, hok], ?_, ?_, rfl, rfl, rfl, rfl, rfl⟩
        · exact lookupAF_insertAF_self _ _ _
        · intro k' hk'
          exact lookupAF_insertAF_ne _ _ hk'

theorem claim_C2_witness :
    HttpApiProblem.empty.set_value "status" (.ok (Json.num 1)) = HttpApiProblem.empty :=
  (claim_C2 HttpApiProblem.empty "status" (.ok (Json.num 1))).2.1
    (Or.inl (by simp [reservedKeys]))

/-- The deserialization function of the target type `i64`, as an instance of
the `fromJson` parameter of `get_value` (models `serde_json::from_value::<i64>(..).ok()`). -/
def intFromJson : Json → Option Int
  | .num n => some n
  | _ => none

/-- C10 (implicit get-after-set): immediately after a successful
`try_set_value(k, v)`, `json_value(k)` is exactly the JSON serialization of
`v`, and `get_value(k)` recovers a value equal to `v` whenever `v`'s type
round-trips through JSON. -/
theorem claim_C10 {α : Type} (fromJson : Json → Option α) (p : HttpApiProblem)
    (key : String) (j : Json) (q : HttpApiProblem)
    (h : p.try_set_value key (.ok j) = .ok q) :
    q.json_value key = some j ∧
    (∀ v : α, fromJson j = some v → HttpApiProblem.get_value fromJson q key = some v) := by
  by_cases hres : key ∈ reservedKeys
  · obtain ⟨msg, herr⟩ := try_set_value_reserved p (.ok j) hres
    rw [herr] at h
    cases h
  · rw [try_set_value_free_ok p j hres] at h
    simp only [Except.ok.injEq] at h
    subst h
    refine ⟨lookupAF_insertAF_self _ _ _, ?_⟩
    intro v hv
    simp [HttpApiProblem.get_value, HttpApiProblem.json_value, lookupAF_insertAF_self, hv]

theorem claim_C10_witness :
    HttpApiProblem.json_value ⟨none, none, none, none, none, [("x", Json.num 42)]⟩ "x"
        = some (Json.num 42) ∧
    HttpApiProblem.get_value intFromJson ⟨none, none, none, none, none, [("x", Json.num 42)]⟩ "x"
        = some 42 := by
  have h := claim_C10 intFromJson HttpApiProblem.empty "x" (Json.num 42)
      ⟨none, none, none, none, none, [("x", Json.num 42)]⟩ rfl
  exact ⟨h.1, h.2 42 rfl⟩

/-- C1 counterexample: decoding `\x7b"status": 99999, "title": "hi"\x7d` does
NOT succeed — `Option::<u16>::deserialize` rejects the numeral before the
invalid-status-code tolerance can apply, so the whole decode fails with a
decode error, contrary to the claim. -/
theorem claim_C1_counterexample :
    decodeProblem (Json.obj [("status", Json.num 99999), ("title", Json.str "hi")]) =
      .error "invalid value: integer out of range for u16" := rfl

/-- C1 (amended): a `status` member whose numeral fits in `u16` (`0..=65535`)
but is not a valid HTTP status code behaves on decode exactly as if the
member were absent: the decode succeeds iff the rest decodes, yields
`status = None`, and preserves every other fixed field and extension member
exactly; a numeral outside the `u16` range, however, fails the whole decode
with a decode error. -/
theorem claim_C1_amended (n : Int) (pre post : List (String × Json))
    (h0 : 0 ≤ n) (h1 : n < 65536) (hinv : statusFromNat n.toNat = none)
    (hpre : "status" ∉ pre.map Prod.fst) (hpost : "status" ∉ post.map Prod.fst) :
    decodeProblem (Json.obj (pre ++ ("status", Json.num n) :: post)) =
      decodeProblem (Json.obj (pre ++ post)) := by
  simp only [decodeProblem, decodeMembers_append]
  cases hdm : decodeMembers pre initState with
  | error e => simp [Except.bind]
  | ok t =>
    simp only [Except.bind]
    have hst : t.st = none := by
      rw [decodeMembers_st_stable pre initState t hpre hdm]
      rfl
    have hstep : decodeStep t "status" (Json.num n) = .ok { t with st := some none } := by
      simp [decodeStep, hst, decodeStatus, h0, h1, hinv, Except.map]
    simp only [decodeMembers, hstep]
    rw [decodeMembers_setSt post t (some none) hpost]
    cases hdp : decodeMembers post t with
    | error e => simp [Except.map]
    | ok u =>
      have hu : u.st = none := by
        rw [decodeMembers_st_stable post t u hpost hdp]
        exact hst
      obtain ⟨ua, ub, uc, ud, ue, uf⟩ := u
      simp only at hu
      subst hu
      simp [Except.map, Option.join]

theorem claim_C1_witness :
    decodeProblem (Json.obj [("status", Json.num 99), ("title", Json.str "hi")]) =
      decodeProblem (Json.obj [("title", Json.str "hi")]) ∧
    decodeProblem (Json.obj [("title", Json.str "hi")]) =
      .ok ⟨none, none, some "hi", none, none, []⟩ := by
  constructor
  · exact claim_C1_amended 99 [] [("title", Json.str "hi")] (by decide) (by decide)
      (by decide) (by simp) (by simp)
  · rfl

theorem mem_keys_encodeObj {p : HttpApiProblem} {k : String}
    (h : k ∈ (encodeObj p).map Prod.fst) :
    (k = "type" ∧ p.type_url ≠ none) ∨ (k = "status" ∧ p.status ≠ none) ∨
    (k = "title" ∧ p.title ≠ none) ∨ (k = "detail" ∧ p.detail ≠ none) ∨
    (k = "instance" ∧ p.instance_ ≠ none) ∨ k ∈ p.keys := by
  obtain ⟨ty, st, ti, de, ins, af⟩ := p
  simp only [encodeObj, List.map_append, List.mem_append] at h
  rcases h with ((((h | h) | h) | h) | h) | h
  · cases ty with
    | none => simp [optMember] at h
    | some t => simp only [optMember, List.map_cons, List.map_nil,
        List.mem_singleton] at h; exact Or.inl ⟨h, by simp⟩
  · cases st with
    | none => simp [optMember] at h
    | some c => simp only [optMember, List.map_cons, List.map_nil,
        List.mem_singleton] at h; exact Or.inr (Or.inl ⟨h, by simp⟩)
  · cases ti with
    | none => simp [optMember] at h
    | some t => simp only [optMember, List.map_cons, List.map_nil,
        List.mem_singleton] at h; exact Or.inr (Or.inr (Or.inl ⟨h, by simp⟩))
  · cases de with
    | none => simp [optMember] at h
    | some t => simp only [optMember, List.map_cons, List.map_nil,
        List.mem_singleton] at h
                exact Or.inr (Or.inr (Or.inr (Or.inl ⟨h, by simp⟩)))
  · cases ins with
    | none => simp [optMember] at h
    | some t => simp only [optMember, List.map_cons, List.map_nil,
        List.mem_singleton] at h
                exact Or.inr (Or.inr (Or.inr (Or.inr (Or.inl ⟨h, by simp⟩))))
  · exact Or.inr (Or.inr (Or.inr (Or.inr (Or.inr h))))

/-- C4: encode omits every absent optional fixed field entirely from the
produced JSON object (no explicit null member — for instance an entity with
`detail = None` encodes to an object with no `detail` member at all), and a
present status is emitted as its plain numeric value. -/
theorem claim_C4 (p : HttpApiProblem) (hext : ∀ k ∈ p.keys, k ∉ wireFive) :
    (p.type_url = none → "type" ∉ (encodeObj p).map Prod.fst) ∧
    (p.status = none → "status" ∉ (encodeObj p).map Prod.fst) ∧
    (p.title = none → "title" ∉ (encodeObj p).map Prod.fst) ∧
    (p.detail = none → "detail" ∉ (encodeObj p).map Prod.fst) ∧
    (p.instance_ = none → "instance" ∉ (encodeObj p).map Prod.fst) ∧
    (∀ c, p.status = some c → ("status", Json.num (c.val : Int)) ∈ encodeObj p) := by
  refine ⟨?_, ?_, ?_, ?_, ?_, ?_⟩
  · intro hn hmem
    rcases mem_keys_encodeObj hmem with ⟨_, hc⟩ | ⟨hk, _⟩ | ⟨hk, _⟩ | ⟨hk, _⟩ | ⟨hk, _⟩ | hk
    · exact hc hn
    · simp at hk
    · simp at hk
    · simp at hk
    · simp at hk
    · exact hext _ hk (by simp [wireFive])
  · intro hn hmem
    rcases mem_keys_encodeObj hmem with ⟨hk, _⟩ | ⟨_, hc⟩ | ⟨hk, _⟩ | ⟨hk, _⟩ | ⟨hk, _⟩ | hk
    · simp at hk
    · exact hc hn
    · simp at hk
    · simp at hk
    · simp at hk
    · exact hext _ hk (by simp [wireFive])
  · intro hn hmem
    rcases mem_keys_encodeObj hmem with ⟨hk, _⟩ | ⟨hk, _⟩ | ⟨_, hc⟩ | ⟨hk, _⟩ | ⟨hk, _⟩ | hk
    · simp at hk
    · simp at hk
    · exact hc hn
    · simp at hk
    · simp at hk
    · exact hext _ hk (by simp [wireFive])
  · intro hn hmem
    rcases mem_keys_encodeObj hmem with ⟨hk, _⟩ | ⟨hk, _⟩ | ⟨hk, _⟩ | ⟨_, hc⟩ | ⟨hk, _⟩ | hk
    · simp at hk
    · simp at hk
    · simp at hk
    · exact hc hn
    · simp at hk
    · exact hext _ hk (by simp [wireFive])
  · intro hn hmem
    rcases mem_keys_encodeObj hmem with ⟨hk, _⟩ | ⟨hk, _⟩ | ⟨hk, _⟩ | ⟨hk, _⟩ | ⟨_, hc⟩ | hk
    · simp at hk
    · simp at hk
    · simp at hk
    · simp at hk
    · exact hc hn
    · exact hext _ hk (by simp [wireFive])
  · intro c hc
    obtain ⟨ty, st, ti, de, ins, af⟩ := p
    simp only at hc
    subst hc
    simp [encodeObj, optMember]

theorem claim_C4_witness :
    "detail" ∉ (encodeObj ⟨none, none, some "t", none, none, [("x", Json.num 1)]⟩).map Prod.fst ∧
    ("status", Json.num 404) ∈
      encodeObj ⟨none, some ⟨404, by omega⟩, none, none, none, []⟩ := by
  constructor
  · exact (claim_C4 ⟨none, none, some "t", none, none, [("x", Json.num 1)]⟩
      (by intro k hk; simp [HttpApiProblem.keys] at hk; simp [hk, wireFive])).2.2.2.1 rfl
  · exact (claim_C4 ⟨none, some ⟨404, by omega⟩, none, none, none, []⟩
      (by intro k hk; simp [HttpApiProblem.keys] at hk)).2.2.2.2.2 ⟨404, by omega⟩ rfl

theorem decodeStep_ex {s : DeState} {k : String} {v : Json} {u : DeState}
    (h : decodeStep s k v = .ok u) :
    u.ex = s.ex ∨ (k ∉ wireFive ∧ u.ex = insertAF s.ex k v) := by
  by_cases h1 : k = "type"
  · subst h1
    cases hty : s.ty with
    | some y => simp [decodeStep, hty] at h
    | none =>
      cases hv : decodeOptString v <;> simp [decodeStep, hty, hv, Except.map] at h
      rw [← h]
      exact Or.inl rfl
  · by_cases h2 : k = "status"
    · subst h2
      cases hst : s.st with
      | some y => simp [decodeStep, hst] at h
      | none =>
        cases hv : decodeStatus v <;> simp [decodeStep, hst, hv, Except.map] at h
        rw [← h]
        exact Or.inl rfl
    · by_cases h3 : k = "title"
      · subst h3
        cases hti : s.ti with
        | some y => simp [decodeStep, h1, hti] at h
        | none =>
          cases hv : decodeOptString v <;> simp [decodeStep, h1, hti, hv, Except.map] at h
          rw [← h]
          exact Or.inl rfl
      · by_cases h4 : k = "detail"
        · subst h4
          cases hde : s.de with
          | some y => simp [decodeStep, h1, h2, hde] at h
          | none =>
            cases hv : decodeOptString v <;>
              simp [decodeStep, h1, h2, hde, hv, Except.map] at h
            rw [← h]
            exact Or.inl rfl
        · by_cases h5 : k = "instance"
          · subst h5
            cases hins : s.ins with
            | some y => simp [decodeStep, h1, h2, h3, hins] at h
            | none =>
              cases hv : decodeOptString v <;>
                simp [decodeStep, h1, h2, h3, hins, hv, Except.map] at h
              rw [← h]
              exact Or.inl rfl
          · simp [decodeStep, h1, h2, h3, h4, h5] at h
            rw [← h]
            exact Or.inr ⟨by simp [wireFive, h1, h2, h3, h4, h5], rfl⟩

theorem decodeMembers_keys_wireFive (ms : List (String × Json)) :
    ∀ (s t : DeState), decodeMembers ms s = .ok t →
      (∀ a ∈ s.ex.map Prod.fst, a ∉ wireFive) →
      ∀ a ∈ t.ex.map Prod.fst, a ∉ wireFive := by
  induction ms with
  | nil =>
    intro s t h hs
    simp only [decodeMembers, Except.ok.injEq] at h
    rw [← h]
    exact hs
  | cons p rest ih =>
    intro s t h hs
    obtain ⟨k, v⟩ := p
    simp only [decodeMembers] at h
    cases hstep : decodeStep s k v with
    | error e => rw [hstep] at h; cases h
    | ok u =>
      rw [hstep] at h
      refine ih u t h ?_
      rcases decodeStep_ex hstep with hex | ⟨hk, hex⟩
      · rw [hex]; exact hs
      · rw [hex]
        intro a ha
        rcases keys_insertAF v ha with rfl | ha'
        · exact hk
        · exact hs a ha'

/-- C9 (implicit): a successfully decoded object never carries any of the
five wire names `type`, `status`, `title`, `detail`, `instance` in its
extension map (they are always routed to the fixed fields), yet a top-level
`additional_fields` member IS captured as an ordinary extension entry even
though the setters reject that key as reserved — decode does not preserve
the setter-level reservation of `additional_fields`. -/
theorem claim_C9 :
    (∀ j p, decodeProblem j = .ok p → ∀ k ∈ p.keys, k ∉ wireFive) ∧
    decodeProblem (Json.obj [("additional_fields", Json.num 1)]) =
      .ok ⟨none, none, none, none, none, [("additional_fields", Json.num 1)]⟩ ∧
    (∀ p v q, HttpApiProblem.try_set_value p "additional_fields" v ≠ .ok q) := by
  refine ⟨?_, rfl, ?_⟩
  · intro j p h k hk
    cases j with
    | obj ms =>
      simp only [decodeProblem] at h
      cases hdm : decodeMembers ms initState with
      | error e => rw [hdm] at h; cases h
      | ok s =>
        rw [hdm] at h
        simp only [Except.ok.injEq] at h
        refine decodeMembers_keys_wireFive ms initState s hdm (by simp [initState]) k ?_
        rw [← h] at hk
        simpa [HttpApiProblem.keys] using hk
    | null => simp [decodeProblem] at h
    | bool b => simp [decodeProblem] at h
    | num n => simp [decodeProblem] at h
    | str s => simp [decodeProblem] at h
    | arr xs => simp [decodeProblem] at h
  · intro p v q hq
    obtain ⟨msg, herr⟩ := @try_set_value_reserved p v "additional_fields" (by simp [reservedKeys])
    rw [herr] at hq
    cases hq

theorem claim_C9_witness : "additional_fields" ∉ wireFive :=
  claim_C9.1 (Json.obj [("additional_fields", Json.num 1)])
    ⟨none, none, none, none, none, [("additional_fields", Json.num 1)]⟩ rfl
    "additional_fields" (by simp [HttpApiProblem.keys])

/-- C3 (round-trip): for every entity whose extension keys are distinct (the
hash-map invariant) and avoid the five wire names (an invariant of every
entity constructible through the crate's API, whose extension map is
private), decoding the encoding gives back the entity exactly.  In
particular an entity with only fixed fields set round-trips, and every
extension key/value pair survives the round-trip. -/
theorem join_map_some {α : Type} (x : Option α) : (x.map some).join = x := by
  cases x <;> rfl

theorem decode_seg_type (ty : Option String) (b : Option (Option StatusCode))
    (c d e : Option (Option String)) (f : List (String × Json)) :
    decodeMembers (optMember "type" Json.str ty) ⟨none, b, c, d, e, f⟩ =
      .ok ⟨ty.map some, b, c, d, e, f⟩ := by
  cases ty <;> rfl

theorem decodeMembers_cons_ok {s s' : DeState} {k : String} {v : Json}
    (rest : List (String × Json)) (h : decodeStep s k v = .ok s') :
    decodeMembers ((k, v) :: rest) s = decodeMembers rest s' := by
  simp only [decodeMembers, h]

theorem decode_seg_status (st : Option StatusCode) (a : Option (Option String))
    (c d e : Option (Option String)) (f : List (String × Json)) :
    decodeMembers (optMember "status" (fun c0 => Json.num (c0.val : Int)) st)
      ⟨a, none, c, d, e, f⟩ = .ok ⟨a, st.map some, c, d, e, f⟩ := by
  cases st with
  | none => rfl
  | some c0 =>
    have h0 : decodeStep ⟨a, none, c, d, e, f⟩ "status" (Json.num (c0.val : Int)) =
        (decodeStatus (Json.num (c0.val : Int))).map
          (fun x => ⟨a, some x, c, d, e, f⟩) := rfl
    have hstep : decodeStep ⟨a, none, c, d, e, f⟩ "status" (Json.num (c0.val : Int)) =
        .ok ⟨a, some (some c0), c, d, e, f⟩ := by
      rw [h0, decodeStatus_valid]
      rfl
    show decodeMembers [("status", Json.num (c0.val : Int))] ⟨a, none, c, d, e, f⟩ = _
    rw [decodeMembers_cons_ok [] hstep]
    rfl

theorem decode_seg_title (ti : Option String) (a : Option (Option String))
    (b : Option (Option StatusCode)) (d e : Option (Option String))
    (f : List (String × Json)) :
    decodeMembers (optMember "title" Json.str ti) ⟨a, b, none, d, e, f⟩ =
      .ok ⟨a, b, ti.map some, d, e, f⟩ := by
  cases ti <;> rfl

theorem decode_seg_detail (de : Option String) (a : Option (Option String))
    (b : Option (Option StatusCode)) (c e : Option (Option String))
    (f : List (String × Json)) :
    decodeMembers (optMember "detail" Json.str de) ⟨a, b, c, none, e, f⟩ =
      .ok ⟨a, b, c, de.map some, e, f⟩ := by
  cases de <;> rfl

theorem decode_seg_instance (ins : Option String) (a : Option (Option String))
    (b : Option (Option StatusCode)) (c d : Option (Option String))
    (f : List (String × Json)) :
    decodeMembers (optMember "instance" Json.str ins) ⟨a, b, c, d, none, f⟩ =
      .ok ⟨a, b, c, d, ins.map some, f⟩ := by
  cases ins <;> rfl

theorem claim_C3 (p : HttpApiProblem)
    (hnd : p.keys.Nodup) (hres : ∀ k ∈ p.keys, k ∉ wireFive) :
    decodeProblem (Json.obj (encodeObj p)) = .ok p := by
  obtain ⟨ty, st, ti, de, ins, af⟩ := p
  simp only [HttpApiProblem.keys] at hnd hres
  have hextras := decodeMembers_extras af
    ⟨ty.map some, st.map some, ti.map some, de.map some, ins.map some, []⟩ hres hnd
    (by simp)
  simp only [List.nil_append] at hextras
  simp only [decodeProblem, encodeObj, decodeMembers_append, initState,
    decode_seg_type, Except.bind, decode_seg_status, decode_seg_title,
    decode_seg_detail, decode_seg_instance, hextras, join_map_some]

theorem claim_C3_witness :
    decodeProblem (Json.obj (encodeObj
      ⟨some "u", some ⟨404, by omega⟩, some "t", none, none, [("x", Json.num 7)]⟩)) =
      .ok ⟨some "u", some ⟨404, by omega⟩, some "t", none, none, [("x", Json.num 7)]⟩ :=
  claim_C3 ⟨some "u", some ⟨404, by omega⟩, some "t", none, none, [("x", Json.num 7)]⟩
    (by simp [HttpApiProblem.keys])
    (by intro k hk; simp [HttpApiProblem.keys] at hk; simp [hk, wireFive])

/-- C8 counterexample: with status 404 and title "T", the `Display`
rendering starts with the status type's display form `404 Not Found` (code
plus canonical reason phrase), not with the bare status code the claim
describes — the rendered line is not `404 - T`. -/
theorem claim_C8_counterexample :
    HttpApiProblem.displayRender ((HttpApiProblem.new ⟨404, by omega⟩).set_title "T") =
      "404 Not Found - T" ∧
    HttpApiProblem.displayRender ((HttpApiProblem.new ⟨404, by omega⟩).set_title "T") ≠
      "404 - T" := by
  constructor
  · rfl
  · decide

/-- The status part of the rendered line: the status type's display form
(numeric code, a space, and the canonical reason phrase or its placeholder),
or the literal `<no status>` when the status is absent. -/
def statusHead (p : HttpApiProblem) : String :=
  match p.status with
  | some c => c.display
  | none => "<no status>"

/-- C8 (amended): the `Display` rendering is a single line consisting of the
status rendered in the status type's display form `"<code> <reason>"` (not
the bare numeric code) or the literal `<no status>` when absent, followed
by: `" - <title> - <detail>"` when both are present, `" - "` and the one
that is present when exactly one is, `" - <type_url>"` when neither is
present but a type URL is, and nothing more otherwise. -/
theorem claim_C8_amended (p : HttpApiProblem) :
    (∀ t d, p.title = some t → p.detail = some d →
      p.displayRender = statusHead p ++ " - " ++ t ++ " - " ++ d) ∧
    (∀ t, p.title = some t → p.detail = none →
      p.displayRender = statusHead p ++ " - " ++ t) ∧
    (∀ d, p.title = none → p.detail = some d →
      p.displayRender = statusHead p ++ " - " ++ d) ∧
    (∀ u, p.title = none → p.detail = none → p.type_url = some u →
      p.displayRender = statusHead p ++ " - " ++ u) ∧
    (p.title = none → p.detail = none → p.type_url = none →
      p.displayRender = statusHead p) := by
  obtain ⟨ty, st, ti, de, ins, af⟩ := p
  refine ⟨?_, ?_, ?_, ?_, ?_⟩
  · rintro t d rfl rfl
    rfl
  · rintro t rfl rfl
    rfl
  · rintro d rfl rfl
    rfl
  · rintro u h1 h2 h3
    simp only at h1 h2 h3
    subst h1
    subst h2
    subst h3
    rfl
  · rintro h1 h2 h3
    simp only at h1 h2 h3
    subst h1
    subst h2
    subst h3
    rfl

theorem claim_C8_witness :
    HttpApiProblem.displayRender
        ⟨some "https://e.com/p", some ⟨503, by omega⟩, none, none, none, []⟩ =
      statusHead ⟨some "https://e.com/p", some ⟨503, by omega⟩, none, none, none, []⟩
        ++ " - " ++ "https://e.com/p" :=
  (claim_C8_amended
    ⟨some "https://e.com/p", some ⟨503, by omega⟩, none, none, none, []⟩).2.2.2.1
    "https://e.com/p" rfl rfl rfl

/-- Lowercase hexadecimal digit, as `serde_json` writes in escapes. -/
def hexDigit (n : Nat) : Char :=
  if n < 10 then Char.ofNat (48 + n) else Char.ofNat (87 + n)

/-- JSON string escaping as performed by `serde_json`: the quote, the
backslash, the short control escapes, and `\u00XX` for the remaining
control characters. -/
def escapeChar (ch : Char) : String :=
  if ch = '"' then "\\\""
  else if ch = '\\' then "\\\\"
  else if ch = Char.ofNat 8 then "\\b"
  else if ch = Char.ofNat 9 then "\\t"
  else if ch = Char.ofNat 10 then "\\n"
  else if ch = Char.ofNat 12 then "\\f"
  else if ch = Char.ofNat 13 then "\\r"
  else if ch.toNat < 32 then
    String.mk ['\\', 'u', '0', '0', hexDigit (ch.toNat / 16), hexDigit (ch.toNat % 16)]
  else String.singleton ch

/-- A JSON string literal in the wire text. -/
def renderString (s : String) : String :=
  "\"" ++ String.join (s.toList.map escapeChar) ++ "\""

/-- The compact text `serde_json` produces for a JSON value tree. -/
def Json.render : Json → String
  | .null => "null"
  | .bool true => "true"
  | .bool false => "false"
  | .num n => toString n
  | .str s => renderString s
  | .arr xs =>
    "[" ++ String.intercalate "," (xs.attach.map (fun x => Json.render x.1)) ++ "]"
  | .obj ms =>
    "\x7b" ++ String.intercalate ","
      (ms.attach.map (fun m => renderString m.1.1 ++ ":" ++ Json.render m.1.2)) ++ "\x7d"
termination_by j => sizeOf j
decreasing_by
  · have := List.sizeOf_lt_of_mem x.2
    simp only [Json.arr.sizeOf_spec]
    omega
  · have := List.sizeOf_lt_of_mem m.2
    have hm : sizeOf m.1.2 < sizeOf m.1 := by
      obtain ⟨⟨mk, mv⟩, hmem⟩ := m
      simp
    simp only [Json.obj.sizeOf_spec]
    omega

/-- Model of serializing one flattened object member
(`SerializeMap::serialize_entry` with a `String` key and a
`serde_json::Value` value): `serde_json`'s serializer can reject a map key
that is not a string, but the keys here are strings by construction, and a
`Value` tree always prints, so an entry always serializes. -/
def serializeMember (k : String) (v : Json) : Except String String :=
  .ok (renderString k ++ ":" ++ Json.render v)

/-- Model of `serde_json::to_string(self)` / `to_vec(self)` as called by
`json_string` / `json_bytes` (lines 568-576): serialize every member of the
encoded object, propagating any serialization error — the `unwrap` in the
source panics exactly when this returns an error. -/
def HttpApiProblem.json_string_result (p : HttpApiProblem) : Except String String :=
  ((encodeObj p).mapM (fun m => serializeMember m.1 m.2)).map
    (fun parts => "\x7b" ++ String.intercalate "," parts ++ "\x7d")

/-- C7: for every entity of the model (whose extension values are stored
JSON trees, exactly what the setters admit), serialization never fails —
the internal `unwrap` of `json_bytes` / `json_string` is unreachable. -/
theorem claim_C7 (p : HttpApiProblem) :
    ∃ s, p.json_string_result = .ok s := by
  have h : ∀ (l : List (String × Json)),
      ∃ parts, l.mapM (fun m => serializeMember m.1 m.2) = .ok parts := by
    intro l
    induction l with
    | nil => exact ⟨[], rfl⟩
    | cons m rest ih =>
      obtain ⟨parts, hp⟩ := ih
      refine ⟨(renderString m.1 ++ ":" ++ Json.render m.2) :: parts, ?_⟩
      rw [List.mapM_cons, hp]
      rfl
  obtain ⟨parts, hp⟩ := h (encodeObj p)
  exact ⟨_, by rw [HttpApiProblem.json_string_result, hp]; rfl⟩
